import Mathlib

/-!
Shallow embedding of `grpo_train_cartpole.py` (GRPO training loop for CartPole).

Numeric conventions: the script computes with 32-bit floats; the embedding uses
exact arithmetic (`ℚ` for the collector, the clipped loss and the outer loop,
`ℝ` for the advantage estimator, whose standard deviation needs a square root).
The one piece of genuine IEEE behaviour that matters to a claim is that
`torch.std` of a single-element tensor (Bessel's correction, zero degrees of
freedom) evaluates `0/0` and returns NaN; NaN production is modelled by an
`Option` result, `none` standing for NaN.
-/

/-! ### Advantage estimator (`calc_advantages_with_grpo`, lines 73-80) -/

/-- Embedding of `torch.mean(rewards)` for a 1-D tensor: sum divided by length. -/
noncomputable def torchMean (r : List ℝ) : ℝ := r.sum / r.length

/-- Value computed by `torch.std(rewards)` on a 1-D tensor with at least two
elements: the square root of the Bessel-corrected sample variance
`Σ (x - mean)² / (N - 1)`. -/
noncomputable def stdValue (r : List ℝ) : ℝ :=
  Real.sqrt ((r.map (fun x => (x - torchMean r) ^ 2)).sum / ((r.length : ℝ) - 1))

/-- Embedding of `torch.std(rewards)` (line 77). With the default Bessel
correction the degrees of freedom are `N - 1`; for `N ≤ 1` the variance is a
`0/0` and torch returns NaN, modelled here as `none`. -/
noncomputable def torchStd (r : List ℝ) : Option ℝ :=
  if r.length ≤ 1 then none else some (stdValue r)

/-- Embedding of `calc_advantages_with_grpo` (lines 73-80):
`advantages = (rewards - mean_reward) / (torch.std(rewards) + 1e-8)`.
A NaN standard deviation poisons every entry, hence the `Option` on the whole
result. -/
noncomputable def calc_advantages_with_grpo (r : List ℝ) : Option (List ℝ) :=
  (torchStd r).map (fun sd => r.map (fun x => (x - torchMean r) / (sd + 1e-8)))

/-! ### Per-timestep clipped surrogate loss (`grpo_update`, lines 117-122) -/

/-- Embedding of `torch.clamp(x, lo, hi)` on a scalar. -/
def torchClamp (x lo hi : ℚ) : ℚ := min (max x lo) hi

/-- Surrogate term `surr1 = ratio * advantage` (line 119). -/
def surr1 (ratio advantage : ℚ) : ℚ := ratio * advantage

/-- Surrogate term `surr2 = torch.clamp(ratio, 1 - eps, 1 + eps) * advantage`
(lines 120-121). -/
def surr2 (eps ratio advantage : ℚ) : ℚ :=
  torchClamp ratio (1 - eps) (1 + eps) * advantage

/-- Contribution of one timestep to the episode loss,
`-torch.min(surr1, surr2)` (line 122). -/
def stepLoss (eps ratio advantage : ℚ) : ℚ :=
  -(min (surr1 ratio advantage) (surr2 eps ratio advantage))

/-- C1: the advantage estimator maps a reward vector of length `N ≥ 2` to the
vector of the same length whose `i`-th entry is
`(r_i - mean r) / (std r + 1e-8)`, the `1e-8` being added to the standard
deviation before dividing. (`N ≥ 2` is what the program's collector produces:
`num_envs = 50`; at `N ≤ 1` `torch.std` is NaN.) -/
theorem advantage_entries (r : List ℝ) (i : ℕ) (h2 : 2 ≤ r.length)
    (hi : i < r.length) :
    calc_advantages_with_grpo r
      = some (r.map (fun x => (x - torchMean r) / (stdValue r + 1e-8))) ∧
    (r.map (fun x => (x - torchMean r) / (stdValue r + 1e-8))).length
      = r.length ∧
    (r.map (fun x => (x - torchMean r) / (stdValue r + 1e-8)))[i]?
      = some ((r[i] - torchMean r) / (stdValue r + 1e-8)) := by
  have hlen : ¬ r.length ≤ 1 := by omega
  refine ⟨?_, ?_, ?_⟩
  · simp [calc_advantages_with_grpo, torchStd, hlen]
  · simp
  · simp [List.getElem?_map, List.getElem?_eq_getElem hi]

/-- Witness for C1 at the concrete reward vector `[1, 2, 3]`, index `0`. -/
theorem advantage_entries_witness :
    calc_advantages_with_grpo [(1 : ℝ), 2, 3]
      = some (([(1 : ℝ), 2, 3]).map
          (fun x => (x - torchMean [(1 : ℝ), 2, 3]) / (stdValue [(1 : ℝ), 2, 3] + 1e-8))) ∧
    (([(1 : ℝ), 2, 3]).map
        (fun x => (x - torchMean [(1 : ℝ), 2, 3]) / (stdValue [(1 : ℝ), 2, 3] + 1e-8))).length
      = ([(1 : ℝ), 2, 3]).length ∧
    (([(1 : ℝ), 2, 3]).map
        (fun x => (x - torchMean [(1 : ℝ), 2, 3]) / (stdValue [(1 : ℝ), 2, 3] + 1e-8)))[0]?
      = some ((([(1 : ℝ), 2, 3])[0] - torchMean [(1 : ℝ), 2, 3]) / (stdValue [(1 : ℝ), 2, 3] + 1e-8)) := by
  exact advantage_entries [(1 : ℝ), 2, 3] 0 (by simp) (by simp)

/-- C4 (code bug): on a single-episode batch `torch.std` has zero degrees of
freedom and is NaN (`none` here), so the advantage is NaN rather than the
exact `0` the spec requires. -/
theorem advantage_singleton_nan :
    calc_advantages_with_grpo [(1 : ℝ)] = none ∧
    calc_advantages_with_grpo [(1 : ℝ)] ≠ some [0] := by
  constructor
  · simp [calc_advantages_with_grpo, torchStd]
  · simp [calc_advantages_with_grpo, torchStd]

/-- C5: once the probability ratio sits outside `[1-eps, 1+eps]` and the
clamped surrogate is the smaller of the two, pushing the ratio further past
the clip boundary in the same direction leaves the timestep's loss
contribution unchanged. -/
theorem clipped_loss_saturates (eps advantage ratio ratio' : ℚ) (heps : 0 ≤ eps)
    (hmin : surr2 eps ratio advantage ≤ surr1 ratio advantage)
    (hdir : (1 + eps < ratio ∧ ratio ≤ ratio') ∨ (ratio < 1 - eps ∧ ratio' ≤ ratio)) :
    stepLoss eps ratio' advantage = stepLoss eps ratio advantage := by
  rcases hdir with ⟨h1, h2⟩ | ⟨h1, h2⟩
  · have hclamp : torchClamp ratio (1 - eps) (1 + eps) = 1 + eps := by
      unfold torchClamp
      rw [max_eq_left (by linarith : 1 - eps ≤ ratio), min_eq_right h1.le]
    have hclamp' : torchClamp ratio' (1 - eps) (1 + eps) = 1 + eps := by
      unfold torchClamp
      rw [max_eq_left (by linarith : 1 - eps ≤ ratio'),
        min_eq_right (by linarith : 1 + eps ≤ ratio')]
    have hA : 0 ≤ advantage := by
      by_contra hA
      push_neg at hA
      have hlt : surr1 ratio advantage < surr2 eps ratio advantage := by
        unfold surr1 surr2
        rw [hclamp]
        exact mul_lt_mul_of_neg_right h1 hA
      linarith
    have hs1 : surr1 ratio advantage ≤ surr1 ratio' advantage :=
      mul_le_mul_of_nonneg_right h2 hA
    have hmin' : surr2 eps ratio' advantage ≤ surr1 ratio' advantage := by
      unfold surr2 at hmin ⊢
      rw [hclamp'] ; rw [hclamp] at hmin
      unfold surr1 at hmin hs1 ⊢
      linarith
    unfold stepLoss
    rw [min_eq_right hmin, min_eq_right hmin']
    unfold surr2
    rw [hclamp, hclamp']
  · have hclamp : torchClamp ratio (1 - eps) (1 + eps) = 1 - eps := by
      unfold torchClamp
      rw [max_eq_right h1.le, min_eq_left (by linarith : 1 - eps ≤ 1 + eps)]
    have hclamp' : torchClamp ratio' (1 - eps) (1 + eps) = 1 - eps := by
      unfold torchClamp
      rw [max_eq_right (by linarith : ratio' ≤ 1 - eps),
        min_eq_left (by linarith : 1 - eps ≤ 1 + eps)]
    have hA : advantage ≤ 0 := by
      by_contra hA
      push_neg at hA
      have hlt : surr1 ratio advantage < surr2 eps ratio advantage := by
        unfold surr1 surr2
        rw [hclamp]
        exact mul_lt_mul_of_pos_right h1 hA
      linarith
    have hs1 : surr1 ratio advantage ≤ surr1 ratio' advantage :=
      mul_le_mul_of_nonpos_right h2 hA
    have hmin' : surr2 eps ratio' advantage ≤ surr1 ratio' advantage := by
      unfold surr2 at hmin ⊢
      rw [hclamp'] ; rw [hclamp] at hmin
      unfold surr1 at hmin hs1 ⊢
      linarith
    unfold stepLoss
    rw [min_eq_right hmin, min_eq_right hmin']
    unfold surr2
    rw [hclamp, hclamp']

/-- Witness for C5 with `eps = 0.2` (the program's value), advantage `1`,
ratio `2` pushed further to `3`. -/
theorem clipped_loss_saturates_witness :
    stepLoss (1/5) 3 1 = stepLoss (1/5) 2 1 := by
  exact clipped_loss_saturates (1/5) 1 2 3 (by norm_num)
    (by norm_num [surr1, surr2, torchClamp])
    (Or.inl ⟨by norm_num, by norm_num⟩)

/-! ### Trajectory collector (`collect_trajectory_vectorized`, lines 23-71)

The vectorized environment and the policy-plus-sampler are external
collaborators; they are abstracted as oracles. The environment carries an
abstract internal state `σ` threaded through `step` (its response depends on
the action history); the sampler is indexed by the timestep, standing for the
fresh categorical draw of each iteration. Observations are vectors of
rationals whose head is the cart position. -/

/-- Policy-plus-sampler oracle: given the timestep (the randomness index) and
the current batch of observations, the sampled actions and their (detached)
log-probabilities, one per environment. -/
abbrev Sampler := ℕ → List (List ℚ) → List ℕ × List ℚ

/-- Vectorized-environment collaborator: `num_envs` parallel instances,
`reset` yields the initial internal state and the initial observations,
`step` consumes the internal state and one action per environment and returns
the new internal state, next observations, raw rewards and done flags. -/
structure VecEnv (σ : Type) where
  num_envs : ℕ
  resetState : σ
  resetObs : List (List ℚ)
  step : σ → List ℕ → σ × List (List ℚ) × List ℚ × List Bool

/-- Mutable state of the collection loop: the environment's internal state,
the current observations `states`, the recorded lists (time-major) and the
running per-environment reward totals and sticky done flags. -/
structure CollectState (σ : Type) where
  envState : σ
  states : List (List ℚ)
  allStates : List (List (List ℚ))
  allActions : List (List ℕ)
  allLogProbs : List (List ℚ)
  allDones : List Bool
  allRewards : List ℚ

/-- Actions sampled at line 46 for the current observations. -/
def stepActions (sample : Sampler) (t : ℕ) (s : CollectState σ) : List ℕ :=
  (sample t s.states).1

/-- Detached log-probabilities of the sampled actions (line 47). -/
def stepLogProbs (sample : Sampler) (t : ℕ) (s : CollectState σ) : List ℚ :=
  (sample t s.states).2

/-- Result of `envs.step(actions)` (line 50). -/
def stepResult (envs : VecEnv σ) (sample : Sampler) (t : ℕ) (s : CollectState σ) :
    σ × List (List ℚ) × List ℚ × List Bool :=
  envs.step s.envState (stepActions sample t s)

/-- Next observations returned by the environment step. -/
def stepNextObs (envs : VecEnv σ) (sample : Sampler) (t : ℕ) (s : CollectState σ) :
    List (List ℚ) :=
  (stepResult envs sample t s).2.1

/-- Raw rewards returned by the environment step. -/
def stepRawRewards (envs : VecEnv σ) (sample : Sampler) (t : ℕ) (s : CollectState σ) :
    List ℚ :=
  (stepResult envs sample t s).2.2.1

/-- Done flags returned by the environment step. -/
def stepDones (envs : VecEnv σ) (sample : Sampler) (t : ℕ) (s : CollectState σ) :
    List Bool :=
  (stepResult envs sample t s).2.2.2

/-- Sticky done flags after `all_dones[dones] = True` (line 55): elementwise
or of the previous sticky flags with the fresh done flags. -/
def newAllDones (envs : VecEnv σ) (sample : Sampler) (t : ℕ) (s : CollectState σ) :
    List Bool :=
  List.zipWith (fun a b => a || b) s.allDones (stepDones envs sample t s)

/-- Rewards after `rewards[all_dones] = 0` (line 56): the raw reward is forced
to zero wherever the (already updated) sticky done flag is set. -/
def zeroedRewards (envs : VecEnv σ) (sample : Sampler) (t : ℕ) (s : CollectState σ) :
    List ℚ :=
  List.zipWith (fun r d => if d then 0 else r)
    (stepRawRewards envs sample t s) (newAllDones envs sample t s)

/-- Rewards after `rewards += -abs(next_states[:, 0])` (line 57): the shaping
penalty, minus the absolute cart position of the next observation, is added
unconditionally after the zeroing. -/
def shapedRewards (envs : VecEnv σ) (sample : Sampler) (t : ℕ) (s : CollectState σ) :
    List ℚ :=
  List.zipWith (fun r ns => r + (0 - |List.headI ns|))
    (zeroedRewards envs sample t s) (stepNextObs envs sample t s)

/-- One iteration of the collection loop body (lines 43-61): sample actions,
step the environment, append state/action/log-probability, update the sticky
done flags, zero the rewards of done environments, add the shaping penalty,
accumulate, and advance the observations. -/
def stepOnce (envs : VecEnv σ) (sample : Sampler) (t : ℕ) (s : CollectState σ) :
    CollectState σ :=
  { envState := (stepResult envs sample t s).1,
    states := stepNextObs envs sample t s,
    allStates := s.allStates ++ [s.states],
    allActions := s.allActions ++ [stepActions sample t s],
    allLogProbs := s.allLogProbs ++ [stepLogProbs sample t s],
    allDones := newAllDones envs sample t s,
    allRewards := List.zipWith (fun a b => a + b) s.allRewards
      (shapedRewards envs sample t s) }

/-- Test `torch.all(all_dones)` of line 62. -/
def allDone (s : CollectState σ) : Bool := s.allDones.all (fun b => b)

/-- Embedding of the `for t in range(num_steps)` loop (lines 42-63): run one
iteration, then stop if every environment is flagged done — the check comes
after the iteration's appends — otherwise continue with the remaining fuel. -/
def collectLoop (envs : VecEnv σ) (sample : Sampler) :
    ℕ → ℕ → CollectState σ → CollectState σ
  | 0, _, s => s
  | fuel + 1, t, s =>
    let s' := stepOnce envs sample t s
    if allDone s' then s' else collectLoop envs sample fuel (t + 1) s'

/-- Collector state right after `envs.reset()` (lines 34-41): empty records,
zero reward totals, all sticky done flags false. -/
def initState (envs : VecEnv σ) : CollectState σ :=
  { envState := envs.resetState,
    states := envs.resetObs,
    allStates := [],
    allActions := [],
    allLogProbs := [],
    allDones := List.replicate envs.num_envs false,
    allRewards := List.replicate envs.num_envs 0 }

/-- Final loop state of a collection run with step budget `num_steps`. -/
def finalState (envs : VecEnv σ) (sample : Sampler) (num_steps : ℕ) :
    CollectState σ :=
  collectLoop envs sample num_steps 0 (initState envs)

/-- Episode-major view produced by `.permute(1,0,...)` on the stacked
time-major tensors (lines 65-67): entry `e` is episode `e`'s sequence over
time. On the rectangular data the collector produces this is exactly the
transpose. -/
def permuteEnvFirst (num_envs : ℕ) (l : List (List α)) : List (List α) :=
  (List.range num_envs).map (fun e => l.filterMap (fun row => row[e]?))

/-- Batch of trajectories returned by the collector (lines 68-69):
episode-major states, log-probabilities and actions, plus the per-episode
normalized rewards. -/
structure Trajectories where
  all_states : List (List (List ℚ))
  all_log_probs : List (List ℚ)
  all_actions : List (List ℕ)
  normalized_rewards : List ℚ

/-- Embedding of `collect_trajectory_vectorized` (lines 23-71). The `gamma`
parameter is accepted, as in the source, and never read. The normalized
rewards divide the accumulated totals by the configured `num_steps` (line 64)
and the returned episode rewards multiply them back (line 70). -/
def collect_trajectory_vectorized (envs : VecEnv σ) (sample : Sampler)
    (num_steps : ℕ) (gamma : ℚ) : Trajectories × List ℚ :=
  let fin := collectLoop envs sample num_steps 0 (initState envs)
  let normalized_rewards := fin.allRewards.map (fun r => r / (num_steps : ℚ))
  ({ all_states := permuteEnvFirst envs.num_envs fin.allStates,
     all_log_probs := permuteEnvFirst envs.num_envs fin.allLogProbs,
     all_actions := permuteEnvFirst envs.num_envs fin.allActions,
     normalized_rewards := normalized_rewards },
   normalized_rewards.map (fun r => r * (num_steps : ℚ)))

/-- C6: the discount factor `gamma` is a dead parameter — two collection runs
differing only in `gamma` (same environment, same policy, same sampled
randomness) return identical states, actions, log-probabilities, normalized
rewards and episode rewards. -/
theorem gamma_is_dead_parameter (envs : VecEnv σ) (sample : Sampler)
    (num_steps : ℕ) (gamma₁ gamma₂ : ℚ) :
    collect_trajectory_vectorized envs sample num_steps gamma₁
      = collect_trajectory_vectorized envs sample num_steps gamma₂ := rfl

/-! ### Length of the collected time dimension -/

/-- Number of loop iterations the collection actually executes, mirroring the
break structure of `collectLoop`. -/
def stepsFrom (envs : VecEnv σ) (sample : Sampler) :
    ℕ → ℕ → CollectState σ → ℕ
  | 0, _, _ => 0
  | fuel + 1, t, s =>
    let s' := stepOnce envs sample t s
    if allDone s' then 1 else 1 + stepsFrom envs sample fuel (t + 1) s'

/-- Break-free reference run: `n` iterations of the loop body, ignoring the
early-exit check. Before the break fires it coincides with `collectLoop`. -/
def runN (envs : VecEnv σ) (sample : Sampler) :
    ℕ → ℕ → CollectState σ → CollectState σ
  | 0, _, s => s
  | n + 1, t, s => runN envs sample n (t + 1) (stepOnce envs sample t s)

/-- Unfolding of a single reference-run iteration. -/
theorem runN_succ (envs : VecEnv σ) (sample : Sampler) (n t : ℕ)
    (s : CollectState σ) :
    runN envs sample (n + 1) t s
      = runN envs sample n (t + 1) (stepOnce envs sample t s) := rfl

/-- Unfolding of one collection-loop iteration. -/
theorem collectLoop_succ (envs : VecEnv σ) (sample : Sampler) (fuel t : ℕ)
    (s : CollectState σ) :
    collectLoop envs sample (fuel + 1) t s
      = if allDone (stepOnce envs sample t s)
          then stepOnce envs sample t s
          else collectLoop envs sample fuel (t + 1) (stepOnce envs sample t s) := rfl

/-- Unfolding of one iteration of the iteration counter. -/
theorem stepsFrom_succ (envs : VecEnv σ) (sample : Sampler) (fuel t : ℕ)
    (s : CollectState σ) :
    stepsFrom envs sample (fuel + 1) t s
      = if allDone (stepOnce envs sample t s)
          then 1
          else 1 + stepsFrom envs sample fuel (t + 1) (stepOnce envs sample t s) := rfl

/-- Index search commutes with mapping over the searched list. -/
theorem findIdx_map_comp (f : α → β) (p : β → Bool) (l : List α) :
    (l.map f).findIdx p = l.findIdx (fun x => p (f x)) := by
  induction l with
  | nil => rfl
  | cons a l ih => simp [List.findIdx_cons, ih]

/-- Iteration count of the collection loop: `fuel` capped at one past the
first iteration index after which every sticky done flag is set. -/
theorem stepsFrom_eq_min (envs : VecEnv σ) (sample : Sampler) :
    ∀ (fuel t : ℕ) (s : CollectState σ),
      stepsFrom envs sample fuel t s
        = min fuel ((List.range fuel).findIdx
            (fun i => allDone (runN envs sample (i + 1) t s)) + 1) := by
  intro fuel
  induction fuel with
  | zero => intro t s; simp [stepsFrom]
  | succ fuel ih =>
    intro t s
    by_cases h : allDone (stepOnce envs sample t s)
    · have hp0 : allDone (runN envs sample (0 + 1) t s) = true := h
      rw [stepsFrom_succ, if_pos h, List.range_succ_eq_map, List.findIdx_cons]
      simp only [hp0, cond_true]
      omega
    · have hp0 : allDone (runN envs sample (0 + 1) t s) = false := by
        simpa using h
      have hrw : ((List.range fuel).map Nat.succ).findIdx
            (fun i => allDone (runN envs sample (i + 1) t s))
          = (List.range fuel).findIdx
            (fun i => allDone (runN envs sample (i + 1) (t + 1)
              (stepOnce envs sample t s))) := by
        rw [findIdx_map_comp]
        rfl
      have hih := ih (t + 1) (stepOnce envs sample t s)
      rw [stepsFrom_succ, if_neg h, List.range_succ_eq_map, List.findIdx_cons]
      simp only [hp0, cond_false, hrw, hih]
      omega

/-- Per iteration the loop appends exactly one element to each of the three
recorded lists, so each of their lengths is the iteration count. -/
theorem collectLoop_lengths (envs : VecEnv σ) (sample : Sampler) :
    ∀ (fuel t : ℕ) (s : CollectState σ),
      (collectLoop envs sample fuel t s).allStates.length
          = s.allStates.length + stepsFrom envs sample fuel t s ∧
      (collectLoop envs sample fuel t s).allActions.length
          = s.allActions.length + stepsFrom envs sample fuel t s ∧
      (collectLoop envs sample fuel t s).allLogProbs.length
          = s.allLogProbs.length + stepsFrom envs sample fuel t s := by
  intro fuel
  induction fuel with
  | zero => intro t s; simp [collectLoop, stepsFrom]
  | succ fuel ih =>
    intro t s
    have hS : (stepOnce envs sample t s).allStates.length
        = s.allStates.length + 1 := by simp [stepOnce]
    have hA : (stepOnce envs sample t s).allActions.length
        = s.allActions.length + 1 := by simp [stepOnce]
    have hL : (stepOnce envs sample t s).allLogProbs.length
        = s.allLogProbs.length + 1 := by simp [stepOnce]
    by_cases h : allDone (stepOnce envs sample t s)
    · rw [collectLoop_succ, if_pos h, stepsFrom_succ, if_pos h]
      exact ⟨hS, hA, hL⟩
    · have hih := ih (t + 1) (stepOnce envs sample t s)
      rw [collectLoop_succ, if_neg h, stepsFrom_succ, if_neg h]
      refine ⟨?_, ?_, ?_⟩ <;> omega

/-- First loop-iteration index (counting from the start of the collection)
after whose execution every environment's sticky done flag is set; equals
`num_steps` when that never happens within the budget. -/
def firstAllDoneIdx (envs : VecEnv σ) (sample : Sampler) (num_steps : ℕ) : ℕ :=
  (List.range num_steps).findIdx
    (fun i => allDone (runN envs sample (i + 1) 0 (initState envs)))

/-- C10: with a step budget `T ≥ 1` the early-exit check runs only after a
step's appends, so the recorded time dimension is exactly
`min T (firstAllDoneIdx + 1)`, the three recorded lists share it, and it is
never zero — the stacking at lines 65-67 never sees an empty list. -/
theorem time_dimension_characterization (envs : VecEnv σ) (sample : Sampler)
    (num_steps : ℕ) (hT : 1 ≤ num_steps) :
    (finalState envs sample num_steps).allStates.length
        = min num_steps (firstAllDoneIdx envs sample num_steps + 1) ∧
    (finalState envs sample num_steps).allActions.length
        = (finalState envs sample num_steps).allStates.length ∧
    (finalState envs sample num_steps).allLogProbs.length
        = (finalState envs sample num_steps).allStates.length ∧
    1 ≤ (finalState envs sample num_steps).allStates.length := by
  have hlen := collectLoop_lengths envs sample num_steps 0 (initState envs)
  have hsteps := stepsFrom_eq_min envs sample num_steps 0 (initState envs)
  have h0 : (initState envs).allStates.length = 0 := rfl
  have h1 : (initState envs).allActions.length = 0 := rfl
  have h2 : (initState envs).allLogProbs.length = 0 := rfl
  unfold finalState firstAllDoneIdx
  omega

/-- Fixture: a one-environment oracle that never reports done. -/
def wEnv : VecEnv Unit :=
  { num_envs := 1, resetState := (), resetObs := [[0]],
    step := fun _ _ => ((), [[0]], [1], [false]) }

/-- Fixture: a one-environment oracle that reports done at every step. -/
def wEnvDone : VecEnv Unit :=
  { num_envs := 1, resetState := (), resetObs := [[0]],
    step := fun _ _ => ((), [[0]], [1], [true]) }

/-- Fixture: a sampler always choosing action 0 with log-probability 0. -/
def wSample : Sampler := fun _ _ => ([0], [0])

/-- Witness for C10 at a concrete never-done environment with budget 2. -/
theorem time_dimension_characterization_witness :
    (finalState wEnv wSample 2).allStates.length
        = min 2 (firstAllDoneIdx wEnv wSample 2 + 1) ∧
    (finalState wEnv wSample 2).allActions.length
        = (finalState wEnv wSample 2).allStates.length ∧
    (finalState wEnv wSample 2).allLogProbs.length
        = (finalState wEnv wSample 2).allStates.length ∧
    1 ≤ (finalState wEnv wSample 2).allStates.length :=
  time_dimension_characterization wEnv wSample 2 (by norm_num)

/-! ### Rectangularity of the records and the episode-major view -/

/-- Extracting column `e` loses no rows when every row is long enough. -/
theorem length_filterMap_getElem (e : ℕ) :
    ∀ (l : List (List α)), (∀ x ∈ l, e < x.length) →
      (l.filterMap (fun row => row[e]?)).length = l.length := by
  intro l
  induction l with
  | nil => intro _; rfl
  | cons a l ih =>
    intro hx
    have ha : e < a.length := hx a (by simp)
    rw [List.filterMap_cons, List.getElem?_eq_getElem ha]
    simp [ih (fun x hx' => hx x (by simp [hx']))]

/-- Entry `e` of the episode-major view is column `e` of the time-major
records. -/
theorem permuteEnvFirst_getD (n e : ℕ) (l : List (List α)) (he : e < n) :
    (permuteEnvFirst n l).getD e [] = l.filterMap (fun row => row[e]?) := by
  unfold permuteEnvFirst
  rw [List.getD_eq_getElem?_getD, List.getElem?_map,
    List.getElem?_range he]
  rfl

/-- Every row the loop ever appends has one entry per environment, provided
the oracles keep their shapes: the sampler returns `n` actions and `n`
log-probabilities, the environment returns `n` next observations, and the
starting observations number `n`. -/
theorem collectLoop_rows_wf (envs : VecEnv σ) (sample : Sampler) (n : ℕ)
    (hsA : ∀ t st, ((sample t st).1).length = n)
    (hsL : ∀ t st, ((sample t st).2).length = n)
    (hsN : ∀ es a, ((envs.step es a).2.1).length = n) :
    ∀ (fuel t : ℕ) (s : CollectState σ),
      (∀ x ∈ s.allStates, x.length = n) → (∀ x ∈ s.allActions, x.length = n) →
      (∀ x ∈ s.allLogProbs, x.length = n) → s.states.length = n →
      (∀ x ∈ (collectLoop envs sample fuel t s).allStates, x.length = n) ∧
      (∀ x ∈ (collectLoop envs sample fuel t s).allActions, x.length = n) ∧
      (∀ x ∈ (collectLoop envs sample fuel t s).allLogProbs, x.length = n) := by
  intro fuel
  induction fuel with
  | zero => intro t s h1 h2 h3 _; exact ⟨h1, h2, h3⟩
  | succ fuel ih =>
    intro t s h1 h2 h3 h4
    have hS' : ∀ x ∈ (stepOnce envs sample t s).allStates, x.length = n := by
      intro x hx
      simp only [stepOnce, List.mem_append, List.mem_singleton] at hx
      rcases hx with hx | hx
      · exact h1 x hx
      · rw [hx]; exact h4
    have hA' : ∀ x ∈ (stepOnce envs sample t s).allActions, x.length = n := by
      intro x hx
      simp only [stepOnce, List.mem_append, List.mem_singleton] at hx
      rcases hx with hx | hx
      · exact h2 x hx
      · rw [hx]; exact hsA t s.states
    have hL' : ∀ x ∈ (stepOnce envs sample t s).allLogProbs, x.length = n := by
      intro x hx
      simp only [stepOnce, List.mem_append, List.mem_singleton] at hx
      rcases hx with hx | hx
      · exact h3 x hx
      · rw [hx]; exact hsL t s.states
    have h4' : (stepOnce envs sample t s).states.length = n := by
      simp only [stepOnce, stepNextObs, stepResult]
      exact hsN s.envState (stepActions sample t s)
    by_cases h : allDone (stepOnce envs sample t s)
    · rw [collectLoop_succ, if_pos h]
      exact ⟨hS', hA', hL'⟩
    · rw [collectLoop_succ, if_neg h]
      exact ih (t + 1) (stepOnce envs sample t s) hS' hA' hL' h4'

/-- C7: each per-episode record of a returned batch carries observation,
action and log-probability sequences of one shared length — the recorded time
dimension, one element of each appended per timestep — and the episode
dimension of each permuted output tensor is `num_envs`. -/
theorem record_sequences_equal_length (envs : VecEnv σ) (sample : Sampler)
    (num_steps : ℕ) (gamma : ℚ) (e : ℕ)
    (hsA : ∀ t st, ((sample t st).1).length = envs.num_envs)
    (hsL : ∀ t st, ((sample t st).2).length = envs.num_envs)
    (hsN : ∀ es a, ((envs.step es a).2.1).length = envs.num_envs)
    (hreset : envs.resetObs.length = envs.num_envs)
    (he : e < envs.num_envs) :
    (collect_trajectory_vectorized envs sample num_steps gamma).1.all_states.length
        = envs.num_envs ∧
    (collect_trajectory_vectorized envs sample num_steps gamma).1.all_actions.length
        = envs.num_envs ∧
    (collect_trajectory_vectorized envs sample num_steps gamma).1.all_log_probs.length
        = envs.num_envs ∧
    ((collect_trajectory_vectorized envs sample num_steps
        gamma).1.all_states.getD e []).length
        = (finalState envs sample num_steps).allStates.length ∧
    ((collect_trajectory_vectorized envs sample num_steps
        gamma).1.all_actions.getD e []).length
        = (finalState envs sample num_steps).allStates.length ∧
    ((collect_trajectory_vectorized envs sample num_steps
        gamma).1.all_log_probs.getD e []).length
        = (finalState envs sample num_steps).allStates.length := by
  have hwf := collectLoop_rows_wf envs sample envs.num_envs hsA hsL hsN
    num_steps 0 (initState envs) (by simp [initState]) (by simp [initState])
    (by simp [initState]) hreset
  have hlen := collectLoop_lengths envs sample num_steps 0 (initState envs)
  have h0 : (initState envs).allStates.length = 0 := rfl
  have h1 : (initState envs).allActions.length = 0 := rfl
  have h2 : (initState envs).allLogProbs.length = 0 := rfl
  refine ⟨?_, ?_, ?_, ?_, ?_, ?_⟩
  · simp [collect_trajectory_vectorized, permuteEnvFirst]
  · simp [collect_trajectory_vectorized, permuteEnvFirst]
  · simp [collect_trajectory_vectorized, permuteEnvFirst]
  · show ((permuteEnvFirst envs.num_envs
        (collectLoop envs sample num_steps 0 (initState envs)).allStates).getD e []).length = _
    rw [permuteEnvFirst_getD _ _ _ he,
      length_filterMap_getElem e _ (fun x hx => (hwf.1 x hx) ▸ he)]
    rfl
  · show ((permuteEnvFirst envs.num_envs
        (collectLoop envs sample num_steps 0 (initState envs)).allActions).getD e []).length = _
    rw [permuteEnvFirst_getD _ _ _ he,
      length_filterMap_getElem e _ (fun x hx => (hwf.2.1 x hx) ▸ he)]
    unfold finalState
    omega
  · show ((permuteEnvFirst envs.num_envs
        (collectLoop envs sample num_steps 0 (initState envs)).allLogProbs).getD e []).length = _
    rw [permuteEnvFirst_getD _ _ _ he,
      length_filterMap_getElem e _ (fun x hx => (hwf.2.2 x hx) ▸ he)]
    unfold finalState
    omega

/-- Witness for C7 at the concrete never-done environment, episode 0. -/
theorem record_sequences_equal_length_witness :
    (collect_trajectory_vectorized wEnv wSample 2 (99/100)).1.all_states.length
        = wEnv.num_envs ∧
    (collect_trajectory_vectorized wEnv wSample 2 (99/100)).1.all_actions.length
        = wEnv.num_envs ∧
    (collect_trajectory_vectorized wEnv wSample 2 (99/100)).1.all_log_probs.length
        = wEnv.num_envs ∧
    ((collect_trajectory_vectorized wEnv wSample 2
        (99/100)).1.all_states.getD 0 []).length
        = (finalState wEnv wSample 2).allStates.length ∧
    ((collect_trajectory_vectorized wEnv wSample 2
        (99/100)).1.all_actions.getD 0 []).length
        = (finalState wEnv wSample 2).allStates.length ∧
    ((collect_trajectory_vectorized wEnv wSample 2
        (99/100)).1.all_log_probs.getD 0 []).length
        = (finalState wEnv wSample 2).allStates.length :=
  record_sequences_equal_length wEnv wSample 2 (99/100) 0
    (fun _ _ => rfl) (fun _ _ => rfl) (fun _ _ => rfl) rfl (by norm_num [wEnv])

/-- C3: for every collection run, the returned normalized reward divides each
accumulated shaped total by the configured budget `T` and the returned
episode reward is the normalized reward multiplied back by `T`; moreover,
when all environments become done strictly before the budget is exhausted,
the run stops early and the recorded trajectories are shorter than `T`
(while the division is still by `T`). -/
theorem reward_normalization_by_T (envs : VecEnv σ) (sample : Sampler)
    (num_steps : ℕ) (gamma : ℚ) :
    (collect_trajectory_vectorized envs sample num_steps gamma).1.normalized_rewards
        = (finalState envs sample num_steps).allRewards.map
            (fun r => r / (num_steps : ℚ)) ∧
    (collect_trajectory_vectorized envs sample num_steps gamma).2
        = (collect_trajectory_vectorized envs sample num_steps
            gamma).1.normalized_rewards.map (fun r => r * (num_steps : ℚ)) ∧
    (firstAllDoneIdx envs sample num_steps + 1 < num_steps →
      (finalState envs sample num_steps).allStates.length < num_steps) := by
  refine ⟨rfl, rfl, fun hf => ?_⟩
  have hlen := (collectLoop_lengths envs sample num_steps 0 (initState envs)).1
  have hsteps := stepsFrom_eq_min envs sample num_steps 0 (initState envs)
  have h0 : (initState envs).allStates.length = 0 := rfl
  unfold finalState
  unfold firstAllDoneIdx at hf
  omega

/-! ### Sticky termination and the ordering of zeroing and shaping -/

/-- Pointwise description of `zipWith` at an index present in both lists. -/
theorem getElem?_zipWith_of (f : α → β → γ) :
    ∀ (l₁ : List α) (l₂ : List β) (i : ℕ) (a : α) (b : β),
      l₁[i]? = some a → l₂[i]? = some b →
      (List.zipWith f l₁ l₂)[i]? = some (f a b) := by
  intro l₁
  induction l₁ with
  | nil => intro l₂ i a b h; simp at h
  | cons x xs ih =>
    intro l₂ i a b h₁ h₂
    cases l₂ with
    | nil => simp at h₂
    | cons y ys =>
      cases i with
      | zero =>
        simp only [List.getElem?_cons_zero, Option.some_inj] at h₁ h₂
        simp [h₁, h₂]
      | succ n =>
        simp only [List.getElem?_cons_succ] at h₁ h₂
        simpa using ih ys n a b h₁ h₂

/-- An index that holds a value is within bounds. -/
theorem lt_length_of_getElem?_eq_some (l : List α) (i : ℕ) (a : α)
    (h : l[i]? = some a) : i < l.length := by
  by_contra hc
  push_neg at hc
  rw [List.getElem?_eq_none hc] at h
  simp at h

/-- A sticky done flag survives any number of further loop iterations: the
update at line 55 only ors fresh done flags into the old ones. -/
theorem sticky_dones_preserved (envs : VecEnv σ) (sample : Sampler) (i : ℕ)
    (hsD : ∀ es a, ((envs.step es a).2.2.2).length = envs.num_envs) :
    ∀ (fuel t : ℕ) (s : CollectState σ),
      s.allDones.length = envs.num_envs → s.allDones[i]? = some true →
      (collectLoop envs sample fuel t s).allDones.length = envs.num_envs ∧
      (collectLoop envs sample fuel t s).allDones[i]? = some true := by
  intro fuel
  induction fuel with
  | zero => intro t s h1 h2; exact ⟨h1, h2⟩
  | succ fuel ih =>
    intro t s h1 h2
    have hi : i < envs.num_envs := by
      have hs := lt_length_of_getElem?_eq_some _ _ _ h2
      omega
    have hd : (stepDones envs sample t s).length = envs.num_envs :=
      hsD s.envState (stepActions sample t s)
    have hlen' : (stepOnce envs sample t s).allDones.length = envs.num_envs := by
      simp only [stepOnce, newAllDones]
      rw [List.length_zipWith, h1, hd, Nat.min_self]
    have h2' : (stepOnce envs sample t s).allDones[i]? = some true := by
      simp only [stepOnce, newAllDones]
      have hdi : (stepDones envs sample t s)[i]?
          = some ((stepDones envs sample t s).get ⟨i, by omega⟩) :=
        List.getElem?_eq_getElem (by omega)
      simpa using getElem?_zipWith_of (fun a b => a || b) s.allDones
        (stepDones envs sample t s) i true _ h2 hdi
    by_cases h : allDone (stepOnce envs sample t s)
    · rw [collectLoop_succ, if_pos h]; exact ⟨hlen', h2'⟩
    · rw [collectLoop_succ, if_neg h]
      exact ih (t + 1) (stepOnce envs sample t s) hlen' h2'

/-- C2: at any collection timestep, an environment whose sticky done flag is
already set has its raw reward forced to zero before the shaping penalty
`-|cart position of next observation|` is added, so its accumulated reward
still moves by exactly that (negative, when the position is nonzero)
penalty; and the sticky flag stays set for the rest of the collection. -/
theorem sticky_done_shaping_order (envs : VecEnv σ) (sample : Sampler)
    (t i fuel : ℕ) (s : CollectState σ)
    (hsN : ∀ es a, ((envs.step es a).2.1).length = envs.num_envs)
    (hsR : ∀ es a, ((envs.step es a).2.2.1).length = envs.num_envs)
    (hsD : ∀ es a, ((envs.step es a).2.2.2).length = envs.num_envs)
    (hlenR : s.allRewards.length = envs.num_envs)
    (hlenD : s.allDones.length = envs.num_envs)
    (hdone : s.allDones[i]? = some true)
    (hpos : List.headI ((stepNextObs envs sample t s).getD i []) ≠ 0) :
    (stepOnce envs sample t s).allRewards.getD i 0
        = s.allRewards.getD i 0
            - |List.headI ((stepNextObs envs sample t s).getD i [])| ∧
    (stepOnce envs sample t s).allDones.getD i false = true ∧
    0 - |List.headI ((stepNextObs envs sample t s).getD i [])| < 0 ∧
    (collectLoop envs sample fuel t s).allDones.getD i false = true := by
  have hi : i < envs.num_envs := by
    have hs := lt_length_of_getElem?_eq_some _ _ _ hdone
    omega
  have hN : (stepNextObs envs sample t s).length = envs.num_envs :=
    hsN s.envState (stepActions sample t s)
  have hR : (stepRawRewards envs sample t s).length = envs.num_envs :=
    hsR s.envState (stepActions sample t s)
  have hD : (stepDones envs sample t s).length = envs.num_envs :=
    hsD s.envState (stepActions sample t s)
  have hnd : (newAllDones envs sample t s)[i]? = some true := by
    unfold newAllDones
    have hdi : (stepDones envs sample t s)[i]?
        = some ((stepDones envs sample t s).get ⟨i, by omega⟩) :=
      List.getElem?_eq_getElem (by omega)
    simpa using getElem?_zipWith_of (fun a b => a || b) s.allDones
      (stepDones envs sample t s) i true _ hdone hdi
  have hz : (zeroedRewards envs sample t s)[i]? = some 0 := by
    unfold zeroedRewards
    have hri : (stepRawRewards envs sample t s)[i]?
        = some ((stepRawRewards envs sample t s).get ⟨i, by omega⟩) :=
      List.getElem?_eq_getElem (by omega)
    simpa using getElem?_zipWith_of (fun r d => if d then (0 : ℚ) else r)
      (stepRawRewards envs sample t s) (newAllDones envs sample t s) i _ true
      hri hnd
  have hnsi : (stepNextObs envs sample t s)[i]?
      = some ((stepNextObs envs sample t s).get ⟨i, by omega⟩) :=
    List.getElem?_eq_getElem (by omega)
  have hsh : (shapedRewards envs sample t s)[i]?
      = some (0 + (0 - |List.headI ((stepNextObs envs sample t s).get ⟨i, by omega⟩)|)) := by
    unfold shapedRewards
    exact getElem?_zipWith_of (fun r ns => r + (0 - |List.headI ns|))
      (zeroedRewards envs sample t s) (stepNextObs envs sample t s) i _ _ hz hnsi
  have hwi : s.allRewards[i]? = some (s.allRewards.get ⟨i, by omega⟩) :=
    List.getElem?_eq_getElem (by omega)
  have hacc : (stepOnce envs sample t s).allRewards[i]?
      = some ((s.allRewards.get ⟨i, by omega⟩)
          + (0 + (0 - |List.headI ((stepNextObs envs sample t s).get ⟨i, by omega⟩)|))) := by
    simp only [stepOnce]
    exact getElem?_zipWith_of (fun a b => a + b) s.allRewards
      (shapedRewards envs sample t s) i _ _ hwi hsh
  have hgns : (stepNextObs envs sample t s).getD i []
      = (stepNextObs envs sample t s).get ⟨i, by omega⟩ := by
    rw [List.getD_eq_getElem?_getD, hnsi]
    rfl
  have hgw : s.allRewards.getD i 0 = s.allRewards.get ⟨i, by omega⟩ := by
    rw [List.getD_eq_getElem?_getD, hwi]
    rfl
  refine ⟨?_, ?_, ?_, ?_⟩
  · rw [List.getD_eq_getElem?_getD, hacc, hgns, hgw]
    show _ + (0 + (0 - _)) = _ - _
    ring
  · have := hnd
    simp only [stepOnce]
    rw [List.getD_eq_getElem?_getD, this]
    rfl
  · rw [hgns]
    have := abs_pos.mpr (hgns ▸ hpos)
    linarith
  · have := (sticky_dones_preserved envs sample i hsD fuel t s hlenD hdone).2
    rw [List.getD_eq_getElem?_getD, this]
    rfl

/-- Fixture: one environment, done flag clear, next observation at position 1,
raw reward 1 — used to witness the zero-then-shape ordering. -/
def wEnvPos : VecEnv Unit :=
  { num_envs := 1, resetState := (), resetObs := [[0]],
    step := fun _ _ => ((), [[1]], [1], [false]) }

/-- Fixture: a collection state whose single environment is already flagged
done and has accumulated reward 5. -/
def wStateDone : CollectState Unit :=
  { envState := (), states := [[0]], allStates := [], allActions := [],
    allLogProbs := [], allDones := [true], allRewards := [5] }

/-- Witness for C2 at the concrete done state: the raw reward 1 is zeroed and
only the penalty `-|1|` reaches the accumulator. -/
theorem sticky_done_shaping_order_witness :
    (stepOnce wEnvPos wSample 0 wStateDone).allRewards.getD 0 0
        = wStateDone.allRewards.getD 0 0
            - |List.headI ((stepNextObs wEnvPos wSample 0 wStateDone).getD 0 [])| ∧
    (stepOnce wEnvPos wSample 0 wStateDone).allDones.getD 0 false = true ∧
    0 - |List.headI ((stepNextObs wEnvPos wSample 0 wStateDone).getD 0 [])| < 0 ∧
    (collectLoop wEnvPos wSample 3 0 wStateDone).allDones.getD 0 false = true :=
  sticky_done_shaping_order wEnvPos wSample 0 0 3 wStateDone
    (fun _ _ => rfl) (fun _ _ => rfl) (fun _ _ => rfl) rfl rfl rfl
    (by norm_num [stepNextObs, stepResult, wEnvPos, wStateDone, wSample, stepActions])

/-- Witness for C3 at a concrete environment that is done after the first
step, with budget 2 (so the early-stop antecedent actually holds there). -/
theorem reward_normalization_by_T_witness :
    (collect_trajectory_vectorized wEnvDone wSample 2 (99/100)).1.normalized_rewards
        = (finalState wEnvDone wSample 2).allRewards.map (fun r => r / (2 : ℚ)) ∧
    (collect_trajectory_vectorized wEnvDone wSample 2 (99/100)).2
        = (collect_trajectory_vectorized wEnvDone wSample 2
            (99/100)).1.normalized_rewards.map (fun r => r * (2 : ℚ)) ∧
    (firstAllDoneIdx wEnvDone wSample 2 + 1 < 2 →
      (finalState wEnvDone wSample 2).allStates.length < 2) :=
  reward_normalization_by_T wEnvDone wSample 2 (99/100)

/-! ### Frame of the policy parameters (lines 47, 129-131) -/

/-- Collection with the policy parameters made explicit: the collector reads
the parameters only through the forward pass inside the sampler
(`policy_net(states_tensor)`, line 44) and performs no assignment to them —
the sampled log-probabilities are detached (line 47) and no optimizer is in
scope — so the parameter state it ends with is the one it started with. -/
def collect_with_params (p : α) (sampleOf : α → Sampler) (envs : VecEnv σ)
    (num_steps : ℕ) (gamma : ℚ) : (Trajectories × List ℚ) × α :=
  (collect_trajectory_vectorized envs (sampleOf p) num_steps gamma, p)

/-- Parameter evolution of `grpo_update` (lines 92-131): per inner iteration
the parameters change exactly once, by the optimizer step
(`optimizer.zero_grad(); loss.backward(); optimizer.step()`), abstracted as
`optStep` applied at the iteration index; nothing else writes them. -/
def grpo_update_params (optStep : ℕ → α → α) : ℕ → ℕ → α → α
  | 0, _, p => p
  | fuel + 1, i, p => grpo_update_params optStep fuel (i + 1) (optStep i p)

/-- Unfolding of one inner update iteration. -/
theorem grpo_update_params_succ (optStep : ℕ → α → α) (fuel i : ℕ) (p : α) :
    grpo_update_params optStep (fuel + 1) i p
      = grpo_update_params optStep fuel (i + 1) (optStep i p) := rfl

/-- C8: the policy parameters are mutated only by the optimizer step inside
the update routine — a run of the collector returns them unchanged, and if
the optimizer step is a no-op the whole update loop leaves them unchanged,
there being no other write. -/
theorem params_mutated_only_by_optimizer (p : α) (sampleOf : α → Sampler)
    (envs : VecEnv σ) (num_steps n_iterations i₀ : ℕ) (gamma : ℚ)
    (optStep : ℕ → α → α) (hopt : ∀ j q, optStep j q = q) :
    (collect_with_params p sampleOf envs num_steps gamma).2 = p ∧
    grpo_update_params optStep n_iterations i₀ p = p := by
  refine ⟨rfl, ?_⟩
  induction n_iterations generalizing i₀ p with
  | zero => rfl
  | succ n ih => rw [grpo_update_params_succ, hopt i₀ p]; apply ih

/-- Witness for C8 at concrete parameters `7 : ℕ` and an identity optimizer
step, with the program's 20 inner iterations. -/
theorem params_mutated_only_by_optimizer_witness :
    (collect_with_params (7 : ℕ) (fun _ => wSample) wEnv 2 (99/100)).2 = 7 ∧
    grpo_update_params (fun _ (q : ℕ) => q) 20 0 7 = 7 :=
  params_mutated_only_by_optimizer 7 (fun _ => wSample) wEnv 2 20 0 (99/100)
    (fun _ (q : ℕ) => q) (fun _ _ => rfl)

/-! ### Outer training loop (lines 147-171) -/

/-- Control flow of the outer loop (lines 153-171), abstracted over the
per-iteration mean episode reward `avgReward` (everything the loop's own
control reads): each iteration appends `avgReward i` to the curve and breaks
as soon as it exceeds `max_steps - 5`. -/
def trainLoopAux (avgReward : ℕ → ℚ) (max_steps : ℚ) :
    ℕ → ℕ → List ℚ → List ℚ
  | 0, _, acc => acc
  | fuel + 1, i, acc =>
    let acc' := acc ++ [avgReward i]
    if max_steps - 5 < avgReward i then acc'
    else trainLoopAux avgReward max_steps fuel (i + 1) acc'

/-- Unfolding of one outer-loop iteration. -/
theorem trainLoopAux_succ (avgReward : ℕ → ℚ) (max_steps : ℚ) (fuel i : ℕ)
    (acc : List ℚ) :
    trainLoopAux avgReward max_steps (fuel + 1) i acc
      = if max_steps - 5 < avgReward i then acc ++ [avgReward i]
        else trainLoopAux avgReward max_steps fuel (i + 1) (acc ++ [avgReward i]) := rfl

/-- Iteration bound of the outer loop, `episode_num = 100` (line 148). -/
def episode_num : ℕ := 100

/-- The `return_list` recorded by the outer loop (lines 151-171). -/
def return_list (avgReward : ℕ → ℚ) (max_steps : ℚ) : List ℚ :=
  trainLoopAux avgReward max_steps episode_num 0 []

/-- Index search only depends on the predicate's values on the list. -/
theorem findIdx_congr (p q : α → Bool) :
    ∀ l : List α, (∀ x ∈ l, p x = q x) → l.findIdx p = l.findIdx q := by
  intro l
  induction l with
  | nil => intro _; rfl
  | cons a l ih =>
    intro h
    rw [List.findIdx_cons, List.findIdx_cons, h a (by simp),
      ih (fun x hx => h x (by simp [hx]))]

/-- Closed form of the outer loop: the recorded curve consists of the
per-iteration averages of the executed iterations, whose count is the fuel
capped at one past the first break index. -/
theorem trainLoopAux_eq (a : ℕ → ℚ) (m : ℚ) :
    ∀ (fuel i : ℕ) (acc : List ℚ),
      trainLoopAux a m fuel i acc
        = acc ++ (List.range (min fuel ((List.range fuel).findIdx
            (fun k => decide (m - 5 < a (i + k))) + 1))).map
            (fun k => a (i + k)) := by
  intro fuel
  induction fuel with
  | zero => intro i acc; simp [trainLoopAux]
  | succ fuel ih =>
    intro i acc
    by_cases h : m - 5 < a i
    · have hp0 : decide (m - 5 < a (i + 0)) = true := decide_eq_true h
      rw [trainLoopAux_succ, if_pos h, List.range_succ_eq_map, List.findIdx_cons]
      simp only [hp0, cond_true]
      have hmin : min (fuel + 1) (0 + 1) = 1 := by omega
      rw [hmin, show List.range 1 = [0] from rfl]
      simp
    · have hp0 : decide (m - 5 < a (i + 0)) = false := decide_eq_false h
      have hF : (List.range (fuel + 1)).findIdx
            (fun k => decide (m - 5 < a (i + k)))
          = (List.range fuel).findIdx
            (fun k => decide (m - 5 < a (i + 1 + k))) + 1 := by
        rw [List.range_succ_eq_map, List.findIdx_cons]
        simp only [hp0, cond_false]
        rw [findIdx_map_comp]
        congr 1
        apply findIdx_congr
        intro x _
        have hx2 : i + Nat.succ x = i + 1 + x := by omega
        simp only [hx2]
      have hmin : min (fuel + 1) ((List.range (fuel + 1)).findIdx
            (fun k => decide (m - 5 < a (i + k))) + 1)
          = min fuel ((List.range fuel).findIdx
            (fun k => decide (m - 5 < a (i + 1 + k))) + 1) + 1 := by omega
      have hmap : (List.range (min fuel ((List.range fuel).findIdx
            (fun k => decide (m - 5 < a (i + 1 + k))) + 1) + 1)).map
            (fun k => a (i + k))
          = a i :: (List.range (min fuel ((List.range fuel).findIdx
            (fun k => decide (m - 5 < a (i + 1 + k))) + 1))).map
            (fun k => a (i + 1 + k)) := by
        rw [List.range_succ_eq_map, List.map_cons, List.map_map]
        congr 1
        apply List.map_eq_map_iff.mpr
        intro x _
        have hx2 : i + Nat.succ x = i + 1 + x := by omega
        simp only [Function.comp_apply, hx2]
      rw [trainLoopAux_succ, if_neg h, ih (i + 1) (acc ++ [a i]), hmin, hmap,
        List.append_assoc, List.singleton_append]

/-- C9: the outer loop executes at most 100 iterations, records exactly one
average-reward point per executed iteration (the iteration's average), and
breaks right after the first iteration whose average exceeds
`max_steps - 5` — so the curve's length is the number of iterations
executed. -/
theorem training_loop_curve_length (avgReward : ℕ → ℚ) (max_steps : ℚ) :
    return_list avgReward max_steps
        = (List.range (min 100 ((List.range 100).findIdx
            (fun k => decide (max_steps - 5 < avgReward k)) + 1))).map avgReward ∧
    (return_list avgReward max_steps).length ≤ 100 := by
  have h := trainLoopAux_eq avgReward max_steps 100 0 []
  have hfi : (List.range 100).findIdx
        (fun k => decide (max_steps - 5 < avgReward (0 + k)))
      = (List.range 100).findIdx
        (fun k => decide (max_steps - 5 < avgReward k)) := by
    apply findIdx_congr
    intro x _
    rw [Nat.zero_add]
  have hlist : return_list avgReward max_steps
      = (List.range (min 100 ((List.range 100).findIdx
          (fun k => decide (max_steps - 5 < avgReward k)) + 1))).map avgReward := by
    show trainLoopAux avgReward max_steps 100 0 [] = _
    rw [h, hfi, List.nil_append]
    apply List.map_eq_map_iff.mpr
    intro x _
    rw [Nat.zero_add]
  refine ⟨hlist, ?_⟩
  rw [hlist]
  simp only [List.length_map, List.length_range]
  omega
